import Mathlib

/-
Verification of the interview-day scheduler (`src/scheduler/schedule.py`,
`src/scheduler/cli.py`).

The Python code builds a CP-SAT model; a solution returned by a successful
`solve()` is an assignment of values to all model variables that satisfies
every posted constraint.  We embed the constraint system as a decidable
predicate `SolutionSat` on assignments and prove properties of satisfying
assignments.  Pure helper functions (time conversion, duration parsing,
validation) are embedded directly as Lean functions; Python `//` and `%`
on `int` are `Int.fdiv` / `Int.fmod`.
-/

namespace Scheduler

/-! ## Timeline model (`InterviewScheduler.time_to_slot`, `slot_to_time`)

`time_to_slot` (schedule.py line 130-132) performs a floor division with no
range check and never raises.  `slot_to_time` (lines 134-139) computes the
pair `(hour, minute)` that the Python code then formats as `"HH:MM"`. -/

/-- `time_to_slot(hour, minute)`: `((hour - H0) * 60 + (minute - M0)) // W`,
Python floor division, no range check. -/
def time_to_slot (H0 M0 W hour minute : ℤ) : ℤ :=
  (((hour - H0) * 60 + (minute - M0)).fdiv W)

/-- `slot_to_time(slot)` before string formatting: `total = slot * W + M0`,
`hour = H0 + total // 60`, `minute = total % 60`. -/
def slot_to_time (H0 M0 W slot : ℤ) : ℤ × ℤ :=
  let total := slot * W + M0
  (H0 + total.fdiv 60, total.fmod 60)





/-! ## The CP-SAT model built by `solve()` (schedule.py lines 141-363)

`solve()` posts constraints to a CP-SAT model; a solution returned by a
successful solve is an assignment of values to all model variables (the
start variables and every auxiliary Boolean/integer variable) satisfying
every posted constraint.  `SolutionSat` below is the conjunction of those
constraints, method by method.  Panels are indexed by `Fin numPanels`
(`panel_name`/`duration` are key and value of the `panels` dict, whose keys
are distinct); candidates by `Fin num_candidates`.  Availability windows are
natural numbers because `_validate_parameters` has already enforced
`0 ≤ lo < hi ≤ slots_per_day` when `solve()` runs. -/

/-- A validated position constraint: `"first"`, `"last"`, or an integer. -/
inductive Position where
  | first
  | last
  | atIndex (k : ℕ)
deriving DecidableEq

/-- A validated scheduling problem as held by an `InterviewScheduler`. -/
structure SchedProblem where
  num_candidates : ℕ
  numPanels : ℕ
  panel_name : Fin numPanels → String
  duration : Fin numPanels → ℕ
  order : List (Fin numPanels)
  availabilities : Fin numPanels → List (ℕ × ℕ)
  slots_per_day : ℕ
  max_gap_minutes : ℕ
  start_time_hour : ℤ
  start_time_minute : ℤ
  slot_duration_minutes : ℕ
  position_constraints : List (Fin numPanels × Position)
  panel_conflicts : List (List (Fin numPanels))

/-- Derived parameter (schedule.py line 70):
`max_gap_slots = max_gap_minutes // slot_duration_minutes`. -/
def SchedProblem.max_gap_slots (prob : SchedProblem) : ℕ :=
  prob.max_gap_minutes / prob.slot_duration_minutes

/-- Values of all model variables, as read back from a solver solution:
start variables (lines 158-161), availability-window selectors (line 206),
`follows` Booleans (line 227), the gap `before`/`after` auxiliaries
(lines 249-250), the position-count `before` Booleans (line 305), the order
`break` Booleans (line 336), and the `num_breaks`/`makespan` integers
(lines 353, 356). -/
structure Assignment (prob : SchedProblem) where
  start : Fin prob.num_candidates → Fin prob.numPanels → ℕ
  availB : Fin prob.num_candidates → Fin prob.numPanels → ℕ → Bool
  follows : Fin prob.num_candidates → Fin prob.numPanels → Fin prob.numPanels → Bool
  before_b : Fin prob.num_candidates → Fin prob.numPanels → Fin prob.numPanels →
    Fin prob.numPanels → Bool
  after_b : Fin prob.num_candidates → Fin prob.numPanels → Fin prob.numPanels →
    Fin prob.numPanels → Bool
  pos_before : Fin prob.num_candidates → Fin prob.numPanels → Fin prob.numPanels → Bool
  break_b : Fin prob.num_candidates → ℕ → Bool
  num_breaks : ℕ
  makespan : ℕ

/-- `AddNoOverlap` semantics for two intervals `[s1, s1+d1)`, `[s2, s2+d2)`. -/
abbrev NoOverlap2 (s1 d1 s2 d2 : ℕ) : Prop :=
  s1 + d1 ≤ s2 ∨ s2 + d2 ≤ s1

/-- Domains of the start variables: `NewIntVar(0, slots_per_day - d)`
(lines 158-161; the lower bound 0 is carried by `ℕ`). -/
abbrev VarDomains (prob : SchedProblem) (a : Assignment prob) : Prop :=
  ∀ c p, a.start c p + prob.duration p ≤ prob.slots_per_day

/-- Lines 190-192: each candidate's sessions pairwise non-overlapping. -/
abbrev CandidateNoOverlap (prob : SchedProblem) (a : Assignment prob) : Prop :=
  ∀ c p q, p ≠ q →
    NoOverlap2 (a.start c p) (prob.duration p) (a.start c q) (prob.duration q)

/-- Line 195: `lunch_like_panels = {"Lunch"}`. -/
def lunch_like_panels : List String := ["Lunch"]

/-- Lines 194-198: for each panel not in `lunch_like_panels`, the sessions
of all candidates pairwise non-overlapping. -/
abbrev PanelNoOverlap (prob : SchedProblem) (a : Assignment prob) : Prop :=
  ∀ p, prob.panel_name p ∉ lunch_like_panels →
    ∀ c c', c ≠ c' →
      NoOverlap2 (a.start c p) (prob.duration p) (a.start c' p) (prob.duration p)

/-- Lines 200-212: per (candidate, panel), each selected window contains the
session and exactly one window selector is true. -/
abbrev AvailabilityOk (prob : SchedProblem) (a : Assignment prob) : Prop :=
  ∀ c p,
    (∀ iw ∈ (prob.availabilities p).enum,
       a.availB c p iw.1 = true →
         iw.2.1 ≤ a.start c p ∧ a.start c p + prob.duration p ≤ iw.2.2) ∧
    (List.range (prob.availabilities p).length).countP (fun i => a.availB c p i) = 1

/-- Lines 214-269: the hard gap constraints via the `follows` chain. -/
abbrev GapConstraints (prob : SchedProblem) (a : Assignment prob) : Prop :=
  ∀ c,
    (∀ p1 p2, p1 ≠ p2 → a.follows c p1 p2 = true →
       a.start c p1 + prob.duration p1 ≤ a.start c p2) ∧
    (∀ p1 p2, p1 ≠ p2 → a.follows c p1 p2 = true →
       a.start c p2 ≤ a.start c p1 + prob.duration p1 + prob.max_gap_slots) ∧
    (∀ p1 p2 p3, p1 ≠ p2 → p3 ≠ p1 → p3 ≠ p2 →
       a.follows c p1 p2 = true → a.before_b c p1 p2 p3 = true →
       a.start c p3 < a.start c p1 + prob.duration p1) ∧
    (∀ p1 p2 p3, p1 ≠ p2 → p3 ≠ p1 → p3 ≠ p2 →
       a.follows c p1 p2 = true → a.after_b c p1 p2 p3 = true →
       a.start c p2 ≤ a.start c p3) ∧
    (∀ p1 p2 p3, p1 ≠ p2 → p3 ≠ p1 → p3 ≠ p2 →
       a.follows c p1 p2 = true →
       a.before_b c p1 p2 p3 = true ∨ a.after_b c p1 p2 p3 = true) ∧
    (∀ p, (Finset.univ.filter
       (fun p1 => p1 ≠ p ∧ a.follows c p1 p = true)).card ≤ 1) ∧
    (∀ p, (Finset.univ.filter
       (fun p2 => p2 ≠ p ∧ a.follows c p p2 = true)).card ≤ 1) ∧
    ((Finset.univ.filter (fun pq : Fin prob.numPanels × Fin prob.numPanels =>
       pq.1 ≠ pq.2 ∧ a.follows c pq.1 pq.2 = true)).card : ℤ) =
      (prob.numPanels : ℤ) - 1

set_option synthInstance.maxSize 2048 in
instance instDecGapConstraints (prob : SchedProblem) (a : Assignment prob) :
    Decidable (GapConstraints prob a) :=
  inferInstance

/-- Lines 279-321: the constraint posted for one pinned panel `p` of one
candidate `c`. -/
def PositionOk (prob : SchedProblem) (a : Assignment prob)
    (c : Fin prob.num_candidates) (p : Fin prob.numPanels) : Position → Prop
  | .first => ∀ q, q ≠ p → a.start c p ≤ a.start c q
  | .last => ∀ q, q ≠ p → a.start c q + prob.duration q ≤ a.start c p
  | .atIndex k =>
    (∀ q, q ≠ p →
       (a.pos_before c p q = true → a.start c q + prob.duration q ≤ a.start c p) ∧
       (a.pos_before c p q = false → a.start c p < a.start c q + prob.duration q)) ∧
    (Finset.univ.filter (fun q => q ≠ p ∧ a.pos_before c p q = true)).card = k

instance instDecidablePositionOk (prob : SchedProblem) (a : Assignment prob)
    (c : Fin prob.num_candidates) (p : Fin prob.numPanels) (pos : Position) :
    Decidable (PositionOk prob a c p pos) := by
  cases pos <;> simp only [PositionOk] <;> infer_instance

/-- Lines 271-321: `_add_position_constraints` over all candidates. -/
abbrev PositionConstraintsOk (prob : SchedProblem) (a : Assignment prob) : Prop :=
  ∀ c, ∀ pc ∈ prob.position_constraints, PositionOk prob a c pc.1 pc.2

/-- Lines 471-488: for each conflict group, all sessions of all panels in
the group across all candidates pairwise non-overlapping. -/
abbrev PanelConflictsOk (prob : SchedProblem) (a : Assignment prob) : Prop :=
  ∀ g ∈ prob.panel_conflicts, ∀ p ∈ g, ∀ q ∈ g,
    ∀ c c' : Fin prob.num_candidates, (p, c) ≠ (q, c') →
      NoOverlap2 (a.start c p) (prob.duration p) (a.start c' q) (prob.duration q)

/-- The consecutive pairs `(order[i], order[i+1])` with their index `i`
(the loop of lines 330-347). -/
def orderPairs (prob : SchedProblem) : List (ℕ × (Fin prob.numPanels × Fin prob.numPanels)) :=
  (prob.order.zip prob.order.tail).enum

/-- Lines 323-349: the soft-order `break` indicator constraints. -/
abbrev OrderConstraints (prob : SchedProblem) (a : Assignment prob) : Prop :=
  ∀ c, ∀ ipq ∈ orderPairs prob,
    (a.break_b c ipq.1 = false →
       a.start c ipq.2.1 + prob.duration ipq.2.1 ≤ a.start c ipq.2.2) ∧
    (a.break_b c ipq.1 = true →
       a.start c ipq.2.2 + prob.duration ipq.2.2 ≤ a.start c ipq.2.1)

/-- The number of `break` variables collected by `_add_order_constraints`. -/
def break_vars_count (prob : SchedProblem) : ℕ :=
  prob.num_candidates * (prob.order.zip prob.order.tail).length

/-- Lines 351-359: `num_breaks = NewIntVar(0, len(break_vars))` constrained
to `sum(break_vars)`, and `makespan = NewIntVar(0, slots_per_day)` above
every session end. -/
abbrev ObjectiveConstraints (prob : SchedProblem) (a : Assignment prob) : Prop :=
  a.num_breaks ≤ break_vars_count prob ∧
  a.num_breaks = ∑ c : Fin prob.num_candidates,
    (orderPairs prob).countP (fun ipq => a.break_b c ipq.1) ∧
  a.makespan ≤ prob.slots_per_day ∧
  (∀ c p, a.start c p + prob.duration p ≤ a.makespan)

/-- Line 362: `BIG = (slots_per_day + 1) * 1000`. -/
def BIG (prob : SchedProblem) : ℕ := (prob.slots_per_day + 1) * 1000

/-- Line 363: the minimized expression `num_breaks * BIG + makespan`. -/
def objective (prob : SchedProblem) (a : Assignment prob) : ℕ :=
  a.num_breaks * BIG prob + a.makespan

/-- Every constraint posted by `solve()`: an assignment read back from a
successful solve satisfies all of these. -/
abbrev SolutionSat (prob : SchedProblem) (a : Assignment prob) : Prop :=
  VarDomains prob a ∧
  CandidateNoOverlap prob a ∧
  PanelNoOverlap prob a ∧
  AvailabilityOk prob a ∧
  GapConstraints prob a ∧
  PositionConstraintsOk prob a ∧
  PanelConflictsOk prob a ∧
  OrderConstraints prob a ∧
  ObjectiveConstraints prob a

set_option synthInstance.maxSize 2048 in
instance instDecSolutionSat (prob : SchedProblem) (a : Assignment prob) :
    Decidable (SolutionSat prob a) :=
  inferInstance

/-! ## Parameter validation (`InterviewScheduler._validate_parameters`)

schedule.py lines 82-128.  A raw problem carries the fields the validator
inspects; a raised `ValueError` is modelled as the validator returning
`false`. -/

/-- A position value as accepted by the Python code: a string (only
`"first"`/`"last"` are valid) or an integer. -/
inductive PyPosition where
  | strPos (s : String)
  | intPos (k : ℤ)
deriving DecidableEq

/-- The constructor arguments that `_validate_parameters` inspects.  Panels
and availabilities are the Python dicts as association lists (dict keys are
distinct; iteration order is insertion order). -/
structure RawProblem where
  panels : List (String × ℤ)
  order : List String
  availabilities : List (String × List (ℤ × ℤ))
  slots_per_day : ℤ
  position_constraints : List (String × PyPosition)
  panel_conflicts : List (List String)

/-- `panel in self.panels` (dict-key membership). -/
def RawProblem.hasPanel (rp : RawProblem) (name : String) : Bool :=
  rp.panels.any (fun q => q.1 == name)

/-- `_validate_parameters` (schedule.py lines 82-128): `true` iff no
`ValueError` is raised. -/
def validate_parameters (rp : RawProblem) : Bool :=
  rp.order.all (fun p => rp.hasPanel p) &&
  rp.panels.all (fun p => rp.availabilities.any (fun a => a.1 == p.1)) &&
  rp.availabilities.all (fun a =>
    a.2.all (fun w => !(w.1 < 0 || w.2 > rp.slots_per_day || w.1 ≥ w.2))) &&
  rp.position_constraints.all (fun pc =>
    rp.hasPanel pc.1 &&
    (match pc.2 with
     | .strPos s => s == "first" || s == "last"
     | .intPos k => decide (0 ≤ k) && decide (k < rp.panels.length))) &&
  rp.panel_conflicts.all (fun g =>
    decide (2 ≤ g.length) &&
    g.all (fun p => rp.hasPanel p) &&
    (g.dedup.length == g.length))

/-- Follows the spec's words ("non-overlapping windows"): every two windows
of the list are disjoint as half-open intervals. -/
def windows_pairwise_disjoint : List (ℤ × ℤ) → Bool
  | [] => true
  | w :: rest =>
    rest.all (fun v => w.2 ≤ v.1 || v.2 ≤ w.1) && windows_pairwise_disjoint rest

/-- Spec-side check that every panel's availability windows are disjoint. -/
def all_windows_disjoint (rp : RawProblem) : Bool :=
  rp.availabilities.all (fun a => windows_pairwise_disjoint a.2)

/-- A problem whose panel `"A"` has two overlapping availability windows
`[0, 5)` and `[3, 8)`. -/
def c5raw : RawProblem :=
  { panels := [("A", 1)]
    order := ["A"]
    availabilities := [("A", [(0, 5), (3, 8)])]
    slots_per_day := 10
    position_constraints := []
    panel_conflicts := [] }



/-! ## CLI duration-to-slot conversion (`create_scheduler_from_config`)

cli.py lines 172-180: each panel's duration in minutes is converted to slots;
a duration not divisible by `slot_duration` raises `ValueError` (modelled as
`none`).  There is no check that the resulting slot count is at least 1. -/

/-- Per-panel conversion: `duration_slots = duration_minutes // slot_duration`;
raise (= `none`) when `duration_minutes % slot_duration != 0`. -/
def panel_duration_to_slots (duration_minutes slot_duration : ℕ) : Option ℕ :=
  let duration_slots := duration_minutes / slot_duration
  if duration_minutes % slot_duration ≠ 0 then none else some duration_slots

/-- The loop over `config['panels']`: the first failing panel raises. -/
def panels_to_slots : List (String × ℕ) → ℕ → Option (List (String × ℕ))
  | [], _ => some []
  | (name, dur) :: rest, W =>
    match panel_duration_to_slots dur W with
    | none => none
    | some s =>
      match panels_to_slots rest W with
      | none => none
      | some rs => some ((name, s) :: rs)

/-! ## Result accessors (`get_candidate_schedule`, `get_solution_summary`,
`export_to_csv`, schedule.py lines 365-567)

These read the solver's values; when no solution was found they return the
empty/"no solution" answers without touching any values. -/

/-- Python `f"{n:02d}"`: decimal representation padded to width 2. -/
def fmt02 (n : ℤ) : String :=
  let s := toString n
  if s.length < 2 then "0" ++ s else s

/-- `slot_to_time` including the final `f"{hour:02d}:{minute:02d}"`. -/
def slot_to_time_str (H0 M0 W slot : ℤ) : String :=
  fmt02 (slot_to_time H0 M0 W slot).1 ++ ":" ++ fmt02 (slot_to_time H0 M0 W slot).2

/-- The result-bearing state of an `InterviewScheduler` after `solve()`:
the `solution_found` flag, `solver.StatusName(status)`, and the solver's
values of the start variables (`solver.Value(start_vars[(c, p)])`). -/
structure SolverState (prob : SchedProblem) where
  solution_found : Bool
  statusName : String
  value : Fin prob.num_candidates → Fin prob.numPanels → ℕ

/-- One session record of `get_candidate_schedule` (lines 406-413); the
`gap_before` key is absent (`none`) until `add_gap_info` sets it. -/
structure Session where
  panel : String
  start_time : String
  end_time : String
  start_slot : ℕ
  end_slot : ℕ
  duration_minutes : ℕ
  gap_before : Option ℤ
deriving DecidableEq

/-- Stable insertion preserving the original order of equal keys, as
Python's `list.sort` does. -/
def insertByStart (s : Session) : List Session → List Session
  | [] => [s]
  | t :: rest =>
    if s.start_slot ≤ t.start_slot then s :: t :: rest else t :: insertByStart s rest

/-- `sessions.sort(key=lambda x: x["start_slot"])` (line 416). -/
def sortByStart : List Session → List Session
  | [] => []
  | s :: rest => insertByStart s (sortByStart rest)

/-- Lines 419-422 for the sessions after the first: set
`gap_before = (start_slot_i - end_slot_{i-1}) * slot_duration_minutes`. -/
def add_gap_info_tail (W : ℤ) (prev : Session) : List Session → List Session
  | [] => []
  | s :: rest =>
    let g : Option ℤ := some (((s.start_slot : ℤ) - (prev.end_slot : ℤ)) * W)
    let s' := { s with gap_before := g }
    s' :: add_gap_info_tail W s' rest

/-- Lines 419-422: the first session keeps no `gap_before` key. -/
def add_gap_info (W : ℤ) : List Session → List Session
  | [] => []
  | s :: rest => s :: add_gap_info_tail W s rest

/-- `get_candidate_schedule` (lines 396-424). -/
def get_candidate_schedule (prob : SchedProblem) (st : SolverState prob)
    (c : Fin prob.num_candidates) : List Session :=
  if st.solution_found = false then []
  else
    let H0 := prob.start_time_hour
    let M0 := prob.start_time_minute
    let W : ℤ := prob.slot_duration_minutes
    let sessions := (List.finRange prob.numPanels).map (fun p =>
      { panel := prob.panel_name p
        start_time := slot_to_time_str H0 M0 W (st.value c p)
        end_time := slot_to_time_str H0 M0 W (st.value c p + prob.duration p)
        start_slot := st.value c p
        end_slot := st.value c p + prob.duration p
        duration_minutes := prob.duration p * prob.slot_duration_minutes
        gap_before := none : Session })
    add_gap_info W (sortByStart sessions)

/-- The record returned by `get_solution_summary` (lines 365-387); in the
no-solution case the Python dict has only the `status` key (`none` models an
absent key). -/
structure SolutionSummary where
  status : String
  order_breaks : Option ℕ
  day_ends_at : Option String
  max_gap_enforced : Option String
deriving DecidableEq

/-- `_is_order_broken` (lines 389-394). -/
def is_order_broken (prob : SchedProblem) (st : SolverState prob)
    (c : Fin prob.num_candidates) (pq : Fin prob.numPanels × Fin prob.numPanels) :
    Bool :=
  decide (st.value c pq.2 < st.value c pq.1 + prob.duration pq.1)

/-- `get_solution_summary` (lines 365-387). -/
def get_solution_summary (prob : SchedProblem) (st : SolverState prob) :
    SolutionSummary :=
  if st.solution_found = false then
    { status := "No solution found"
      order_breaks := none
      day_ends_at := none
      max_gap_enforced := none }
  else
    let makespan := Finset.univ.sup
      (fun cp : Fin prob.num_candidates × Fin prob.numPanels =>
        st.value cp.1 cp.2 + prob.duration cp.2)
    { status := st.statusName
      order_breaks := some (∑ c : Fin prob.num_candidates,
        (prob.order.zip prob.order.tail).countP (fun pq => is_order_broken prob st c pq))
      day_ends_at := some (slot_to_time_str prob.start_time_hour
        prob.start_time_minute prob.slot_duration_minutes makespan)
      max_gap_enforced := some (toString prob.max_gap_minutes ++ " minutes") }

/-- The cell of the CSV matrix for `(slot, c)` (lines 507-523): the panels
are written in dict order, each overwriting the slots it covers, so the cell
holds the last covering panel's name, or `""` when idle. -/
def csv_cell (prob : SchedProblem) (st : SolverState prob)
    (c : Fin prob.num_candidates) (slot : ℕ) : String :=
  match ((List.finRange prob.numPanels).filter (fun p =>
      st.value c p ≤ slot ∧ slot < st.value c p + prob.duration p)).getLast? with
  | some p => prob.panel_name p
  | none => ""

/-- `export_to_csv` (lines 490-555) producing the rows of cells; the raised
`ValueError` is modelled as `Except.error` with the Python message. -/
def export_to_csv (prob : SchedProblem) (st : SolverState prob)
    (date : String) : Except String (List (List String)) :=
  if st.solution_found = false then
    .error "No solution found. Call solve() first."
  else
    let H0 := prob.start_time_hour
    let M0 := prob.start_time_minute
    let W : ℤ := prob.slot_duration_minutes
    let header := date :: (List.finRange prob.num_candidates).map
      (fun c => "CANDIDATE " ++ toString (c.val + 1))
    let rows := (List.range prob.slots_per_day).map (fun slot : ℕ =>
      (slot_to_time_str H0 M0 W (slot : ℤ) ++ "-" ++
        slot_to_time_str H0 M0 W ((slot : ℤ) + 1)) ::
        (List.finRange prob.num_candidates).map (fun c => csv_cell prob st c slot))
    .ok (header :: rows)

/-! ## `parse_duration` (cli.py lines 48-92)

Python strings are embedded as `List Char`; each helper mirrors the Python
string operation used by `parse_duration`. -/

/-- Python `str.lower()` (inputs of interest are ASCII). -/
def pyLower (l : List Char) : List Char := l.map Char.toLower

/-- The whitespace characters recognised by `str.strip()` and `int()`. -/
def pyIsSpace (c : Char) : Bool := c == ' ' || c == '\t' || c == '\n' || c == '\r'

/-- Python `str.strip()`. -/
def pyStrip (l : List Char) : List Char :=
  ((l.dropWhile pyIsSpace).reverse.dropWhile pyIsSpace).reverse

/-- Python `str.isdigit()` on ASCII strings: nonempty and all digits. -/
def pyIsDigit (l : List Char) : Bool := !l.isEmpty && l.all Char.isDigit

/-- Decimal value of a digit string. -/
def digitsToNat (l : List Char) : ℕ :=
  l.foldl (fun n c => n * 10 + (c.toNat - '0'.toNat)) 0

/-- Python `int(text)` on a decimal literal: optional surrounding
whitespace, an optional sign, then one or more digits; anything else raises
`ValueError` (`none`).  Numeric-underscore grouping is not modelled. -/
def pyIntCore : List Char → Option ℤ
  | [] => none
  | c :: rest =>
    if c = '+' then
      if pyIsDigit rest then some (digitsToNat rest : ℤ) else none
    else if c = '-' then
      if pyIsDigit rest then some (-(digitsToNat rest : ℤ)) else none
    else if pyIsDigit (c :: rest) then some (digitsToNat (c :: rest) : ℤ) else none

/-- Python `int(text)` applied to the stripped literal. -/
def pyInt (l : List Char) : Option ℤ := pyIntCore (pyStrip l)

/-- Python substring containment `pat in s`. -/
def pyContains (pat : List Char) : List Char → Bool
  | [] => pat.isEmpty
  | c :: rest => pat.isPrefixOf (c :: rest) || pyContains pat rest

/-- Python `str.split(sep)` for a one-character separator: splits at every
occurrence, keeping empty pieces. -/
def pySplit (sep : Char) : List Char → List (List Char)
  | [] => [[]]
  | c :: rest =>
    if c = sep then [] :: pySplit sep rest
    else
      match pySplit sep rest with
      | [] => [[c]]
      | t :: ts => (c :: t) :: ts

/-- Scanner for `str.replace(pat, "")`: `skip` counts characters of a
matched occurrence still to be dropped; at `skip = 0` a new match may start
(non-overlapping, left to right, as in Python). -/
def pyRemoveGo (pat : List Char) : ℕ → List Char → List Char
  | _, [] => []
  | k + 1, _ :: rest => pyRemoveGo pat k rest
  | 0, c :: rest =>
    if pat ≠ [] ∧ pat.isPrefixOf (c :: rest) then
      pyRemoveGo pat (pat.length - 1) rest
    else c :: pyRemoveGo pat 0 rest

/-- Python `str.replace(pat, "")`. -/
def pyRemove (pat : List Char) (s : List Char) : List Char := pyRemoveGo pat 0 s

/-- `parse_duration` (cli.py lines 48-92); a raised `ValueError` is `none`.
The branch structure follows the Python function: lower and strip, then the
`isdigit` test, then the `'h'` / `'min'` containment tests. -/
def parse_duration (s0 : List Char) : Option ℤ :=
  let s := pyStrip (pyLower s0)
  if pyIsDigit s then pyInt s
  else if pyContains ['h'] s then
    if pyContains ['m', 'i', 'n'] s then
      match pySplit 'h' s with
      | p0 :: p1 :: _ =>
        match pyInt p0 with
        | none => none
        | some hours =>
          let remaining := pyStrip (pyRemove ['m', 'i', 'n'] p1)
          match (if remaining.isEmpty then some (0 : ℤ) else pyInt remaining) with
          | none => none
          | some minutes => some (hours * 60 + minutes)
      | _ => none
    else
      match pyInt (pyRemove ['h'] s) with
      | none => none
      | some hours => some (hours * 60 + 0)
  else if pyContains ['m', 'i', 'n'] s then
    pyInt (pyRemove ['m', 'i', 'n'] s)
  else none

/-- The ten decimal digit characters. -/
def digitChars : List Char := ['0', '1', '2', '3', '4', '5', '6', '7', '8', '9']

/-- The four formats the spec names — `N`, `Nmin`, `Nh`, `NhMmin` — read
case-insensitively.  This definition follows the spec's words, for
comparison with what `parse_duration` accepts. -/
def isSpecFormat (s0 : List Char) : Bool :=
  let s := pyLower s0
  let ds := s.takeWhile Char.isDigit
  let rest := s.dropWhile Char.isDigit
  !ds.isEmpty &&
    (rest.isEmpty || rest == ['m', 'i', 'n'] || rest == ['h'] ||
      (match rest with
       | 'h' :: rest2 =>
         !(rest2.takeWhile Char.isDigit).isEmpty &&
           rest2.dropWhile Char.isDigit == ['m', 'i', 'n']
       | _ => false))

/-! ## Concrete instances (used to witness the model-level theorems) -/

/-- Slot `t` lies inside candidate `c`'s session of panel `p`. -/
abbrev InSession (prob : SchedProblem) (a : Assignment prob)
    (c : Fin prob.num_candidates) (p : Fin prob.numPanels) (t : ℕ) : Prop :=
  a.start c p ≤ t ∧ t < a.start c p + prob.duration p

/-- One candidate, two one-slot panels in order. -/
def exProb : SchedProblem :=
  { num_candidates := 1
    numPanels := 2
    panel_name := fun p => if p.val = 0 then "Director" else "HR"
    duration := fun _ => 1
    order := [⟨0, by decide⟩, ⟨1, by decide⟩]
    availabilities := fun _ => [(0, 34)]
    slots_per_day := 34
    max_gap_minutes := 15
    start_time_hour := 8
    start_time_minute := 30
    slot_duration_minutes := 15
    position_constraints := []
    panel_conflicts := [] }

/-- Solution of `exProb` respecting the preferred order (panel 0 at slot 0,
panel 1 at slot 1). -/
def exAssign : Assignment exProb :=
  { start := fun _ p => if p.val = 0 then 0 else 1
    availB := fun _ _ i => i == 0
    follows := fun _ p1 p2 => p1.val == 0 && p2.val == 1
    before_b := fun _ _ _ _ => false
    after_b := fun _ _ _ _ => false
    pos_before := fun _ _ _ => false
    break_b := fun _ _ => false
    num_breaks := 0
    makespan := 2 }

/-- Solution of `exProb` violating the preferred order (panel 1 first). -/
def exAssignBroken : Assignment exProb :=
  { start := fun _ p => if p.val = 0 then 1 else 0
    availB := fun _ _ i => i == 0
    follows := fun _ p1 p2 => p1.val == 1 && p2.val == 0
    before_b := fun _ _ _ _ => false
    after_b := fun _ _ _ _ => false
    pos_before := fun _ _ _ => false
    break_b := fun _ _ => true
    num_breaks := 1
    makespan := 2 }

/-- Two candidates sharing the single panel `"Lunch"` at the same slot. -/
def lunchProb : SchedProblem :=
  { num_candidates := 2
    numPanels := 1
    panel_name := fun _ => "Lunch"
    duration := fun _ => 1
    order := []
    availabilities := fun _ => [(0, 2)]
    slots_per_day := 2
    max_gap_minutes := 15
    start_time_hour := 8
    start_time_minute := 30
    slot_duration_minutes := 15
    position_constraints := []
    panel_conflicts := [] }

/-- Both candidates take `"Lunch"` at slot 0: their sessions overlap. -/
def lunchAssign : Assignment lunchProb :=
  { start := fun _ _ => 0
    availB := fun _ _ i => i == 0
    follows := fun _ _ _ => false
    before_b := fun _ _ _ _ => false
    after_b := fun _ _ _ _ => false
    pos_before := fun _ _ _ => false
    break_b := fun _ _ => false
    num_breaks := 0
    makespan := 1 }

/-- Two candidates and one ordinary (non-`"Lunch"`) panel. -/
def soloProb : SchedProblem :=
  { num_candidates := 2
    numPanels := 1
    panel_name := fun _ => "Solo"
    duration := fun _ => 1
    order := []
    availabilities := fun _ => [(0, 3)]
    slots_per_day := 3
    max_gap_minutes := 15
    start_time_hour := 8
    start_time_minute := 30
    slot_duration_minutes := 15
    position_constraints := []
    panel_conflicts := [] }

/-- The two `"Solo"` sessions at slots 0 and 1. -/
def soloAssign : Assignment soloProb :=
  { start := fun c _ => if c.val = 0 then 0 else 1
    availB := fun _ _ i => i == 0
    follows := fun _ _ _ => false
    before_b := fun _ _ _ _ => false
    after_b := fun _ _ _ _ => false
    pos_before := fun _ _ _ => false
    break_b := fun _ _ => false
    num_breaks := 0
    makespan := 2 }

/-- One candidate, two one-slot panels, panel 0 pinned at integer position 1. -/
def posProb : SchedProblem :=
  { num_candidates := 1
    numPanels := 2
    panel_name := fun p => if p.val = 0 then "Team" else "Intro"
    duration := fun _ => 1
    order := []
    availabilities := fun _ => [(0, 34)]
    slots_per_day := 34
    max_gap_minutes := 15
    start_time_hour := 8
    start_time_minute := 30
    slot_duration_minutes := 15
    position_constraints := [(⟨0, by decide⟩, Position.atIndex 1)]
    panel_conflicts := [] }

/-- Solution of `posProb`: panel 1 at slot 0, pinned panel 0 at slot 1. -/
def posAssign : Assignment posProb :=
  { start := fun _ p => if p.val = 0 then 1 else 0
    availB := fun _ _ i => i == 0
    follows := fun _ p1 p2 => p1.val == 1 && p2.val == 0
    before_b := fun _ _ _ _ => false
    after_b := fun _ _ _ _ => false
    pos_before := fun _ p q => p.val == 0 && q.val == 1
    break_b := fun _ _ => false
    num_breaks := 0
    makespan := 2 }

/-- A state in which no solution has been found. -/
def stNone : SolverState exProb :=
  { solution_found := false
    statusName := "UNKNOWN"
    value := fun _ _ => 0 }

/-! ## Theorems -/

/-- C6 counterexample: with the default parameters (start 08:30, 15-minute
slots), `time_to_slot(7, 0)` returns `-6` — a negative slot index — instead
of failing with a `BadTime` error as the claim states.  The Python function
(schedule.py lines 130-132) performs the floor division and returns its
result unconditionally; there is no error path. -/
theorem C6_counterexample :
    time_to_slot 8 30 15 7 0 = -6 ∧ (-6 : ℤ) < 0 := by
  constructor
  · decide
  · decide

/-- C6 (amended): `time_to_slot` never fails; for every input `(h, m)` it
returns the floor division `((h - H0) * 60 + (m - M0)) // W`.  The result is
negative exactly when the clock time precedes the day start, and `< S`
exactly when the time is within the first `S` slots: no range check is
performed, out-of-range times simply yield out-of-range slot indices. -/
theorem C6_time_to_slot_total (H0 M0 W S hour minute : ℤ) (hW : 0 < W) :
    time_to_slot H0 M0 W hour minute = ((hour - H0) * 60 + (minute - M0)).fdiv W ∧
    (0 ≤ time_to_slot H0 M0 W hour minute ↔ 0 ≤ (hour - H0) * 60 + (minute - M0)) ∧
    (time_to_slot H0 M0 W hour minute < S ↔ (hour - H0) * 60 + (minute - M0) < S * W) := by
  have hW' : (0 : ℤ) ≤ W := le_of_lt hW
  refine ⟨rfl, ?_, ?_⟩
  · rw [time_to_slot, Int.fdiv_eq_ediv _ hW']
    have h := Int.le_ediv_iff_mul_le (a := 0) (b := (hour - H0) * 60 + (minute - M0)) hW
    simpa using h
  · rw [time_to_slot, Int.fdiv_eq_ediv _ hW']
    exact Int.ediv_lt_iff_lt_mul hW

/-- C6 witness: amended theorem instantiated at the default parameters. -/
theorem C6_time_to_slot_total_witness :
    (0 ≤ time_to_slot 8 30 15 9 0 ↔ (0 : ℤ) ≤ (9 - 8) * 60 + (0 - 30)) :=
  (C6_time_to_slot_total 8 30 15 34 9 0 (by decide)).2.1

/-- C8: round-trip between slot indices and clock times.  For every slot
`k ∈ [0, S]`, `time_to_slot` applied to the `(hour, minute)` pair computed by
`slot_to_time k` returns `k`; and for every slot-aligned in-range clock time
`(h, m)` (with `0 ≤ m < 60`), `slot_to_time (time_to_slot h m) = (h, m)`. -/
theorem C8_round_trip (H0 M0 W S : ℤ) (hW : 0 < W) :
    (∀ k : ℤ, 0 ≤ k → k ≤ S →
      time_to_slot H0 M0 W (slot_to_time H0 M0 W k).1 (slot_to_time H0 M0 W k).2 = k) ∧
    (∀ hour minute : ℤ, 0 ≤ minute → minute < 60 →
      W ∣ ((hour - H0) * 60 + (minute - M0)) →
      0 ≤ time_to_slot H0 M0 W hour minute → time_to_slot H0 M0 W hour minute ≤ S →
      slot_to_time H0 M0 W (time_to_slot H0 M0 W hour minute) = (hour, minute)) := by
  have hWne : W ≠ 0 := ne_of_gt hW
  constructor
  · intro k _ _
    simp only [time_to_slot, slot_to_time]
    have hdm : (60 : ℤ) * (k * W + M0).fdiv 60 + (k * W + M0).fmod 60 = k * W + M0 :=
      Int.fdiv_add_fmod _ _
    have : H0 + (k * W + M0).fdiv 60 - H0 = (k * W + M0).fdiv 60 := by ring
    rw [this]
    have harg : (k * W + M0).fdiv 60 * 60 + ((k * W + M0).fmod 60 - M0) = k * W := by
      have h60 : (k * W + M0).fdiv 60 * 60 = 60 * (k * W + M0).fdiv 60 := by ring
      omega
    rw [harg, Int.mul_fdiv_cancel _ hWne]
  · intro hour minute hm0 hm60 hdvd _ _
    obtain ⟨t, ht⟩ := hdvd
    have hslot : time_to_slot H0 M0 W hour minute = t := by
      rw [time_to_slot, ht, Int.fdiv_eq_ediv_of_dvd ⟨t, rfl⟩, Int.mul_ediv_cancel_left _ hWne]
    rw [hslot, slot_to_time]
    have htotal : t * W + M0 = (hour - H0) * 60 + minute := by
      have h1 : W * t = (hour - H0) * 60 + (minute - M0) := ht.symm
      have h2 : t * W = W * t := mul_comm t W
      omega
    have hfd : ((hour - H0) * 60 + minute).fdiv 60 = hour - H0 := by
      rw [Int.fdiv_eq_ediv _ (by decide : (0:ℤ) ≤ 60)]
      have hcomm : (hour - H0) * 60 + minute = minute + (hour - H0) * 60 := by ring
      rw [hcomm, Int.add_mul_ediv_right _ _ (by decide : (60:ℤ) ≠ 0),
        Int.ediv_eq_zero_of_lt hm0 hm60]
      ring
    have hfm : ((hour - H0) * 60 + minute).fmod 60 = minute := by
      rw [Int.fmod_eq_emod _ (by decide : (0:ℤ) ≤ 60)]
      have hcomm : (hour - H0) * 60 + minute = minute + (hour - H0) * 60 := by ring
      rw [hcomm, Int.add_mul_emod_self, Int.emod_eq_of_lt hm0 hm60]
    simp only [htotal, hfd, hfm]
    have hh : H0 + (hour - H0) = hour := by ring
    rw [hh]

/-- C8 witness: round trip at the default parameters, slot 3 and time 09:00. -/
theorem C8_round_trip_witness :
    time_to_slot 8 30 15 (slot_to_time 8 30 15 3).1 (slot_to_time 8 30 15 3).2 = 3 ∧
    slot_to_time 8 30 15 (time_to_slot 8 30 15 9 0) = (9, 0) :=
  ⟨(C8_round_trip 8 30 15 34 (by decide)).1 3 (by decide) (by decide),
   (C8_round_trip 8 30 15 34 (by decide)).2 9 0 (by decide) (by decide) (by decide)
     (by decide) (by decide)⟩

/-- C5 counterexample: validation succeeds on a problem whose panel has two
overlapping availability windows, so the validator does not reject overlap
and construction does not guarantee pairwise-disjoint windows. -/
theorem C5_counterexample :
    validate_parameters c5raw = true ∧ all_windows_disjoint c5raw = false := by
  constructor
  · decide
  · decide

/-- C5 (amended): the validator checks each availability window individually
— `0 ≤ start`, `start < end`, `end ≤ slots_per_day` — but never compares two
windows, so overlapping windows of the same panel are accepted. -/
theorem C5_window_validation (rp : RawProblem)
    (h : validate_parameters rp = true) :
    ∀ pw ∈ rp.availabilities, ∀ w ∈ pw.2,
      0 ≤ w.1 ∧ w.1 < w.2 ∧ w.2 ≤ rp.slots_per_day := by
  intro pw hpw w hw
  have h3 : rp.availabilities.all (fun a =>
      a.2.all (fun w => !(w.1 < 0 || w.2 > rp.slots_per_day || w.1 ≥ w.2))) = true := by
    simp only [validate_parameters, Bool.and_eq_true] at h
    exact h.1.1.2
  rw [List.all_eq_true] at h3
  have h4 := h3 pw hpw
  rw [List.all_eq_true] at h4
  have h5 := h4 w hw
  simp only [Bool.not_eq_true', Bool.or_eq_false_iff, decide_eq_false_iff_not,
    not_lt, not_le] at h5
  exact ⟨h5.1.1, h5.2, h5.1.2⟩

/-- C5 witness: the amended theorem applied to `c5raw` and its first window. -/
theorem C5_window_validation_witness :
    (0 : ℤ) ≤ 0 ∧ (0 : ℤ) < 5 ∧ (5 : ℤ) ≤ c5raw.slots_per_day :=
  C5_window_validation c5raw (by decide) ("A", [(0, 5), (3, 8)]) (by decide)
    (0, 5) (by decide)

/-- C7 counterexample: a panel of 0 minutes (strictly less than one slot) is
accepted by the configuration validation with 0 slots, although the claim
says a duration of less than 1 slot is rejected with `BadDuration`. -/
theorem C7_counterexample :
    panels_to_slots [("Zero", 0)] 15 = some [("Zero", 0)] ∧ (0 : ℕ) < 1 := by
  constructor
  · rfl
  · decide

/-- C7 (amended): the up-front validation rejects a configuration exactly
when some panel's duration in minutes is not divisible by the slot duration;
a duration that divides evenly is accepted with `minutes / W` slots even when
that quotient is 0 (no "at least 1 slot" check exists). -/
theorem C7_duration_validation (ps : List (String × ℕ)) (W : ℕ) (hW : 0 < W) :
    (panels_to_slots ps W = none ↔ ∃ p ∈ ps, ¬ (W ∣ p.2)) ∧
    (∀ m : ℕ, W ∣ m → panel_duration_to_slots m W = some (m / W)) := by
  constructor
  · induction ps with
    | nil => simp [panels_to_slots]
    | cons p rest ih =>
      obtain ⟨name, dur⟩ := p
      simp only [panels_to_slots]
      by_cases h : dur % W = 0
      · have hp : panel_duration_to_slots dur W = some (dur / W) := by
          simp [panel_duration_to_slots, h]
        rw [hp]
        cases hrest : panels_to_slots rest W with
        | none =>
          simp only [reduceCtorEq, true_iff]
          obtain ⟨q, hq, hqd⟩ := ih.mp hrest
          exact ⟨q, List.mem_cons_of_mem _ hq, hqd⟩
        | some rs =>
          simp only [reduceCtorEq, false_iff]
          intro hex
          obtain ⟨q, hq, hqd⟩ := hex
          rcases List.mem_cons.mp hq with hq1 | hq2
          · subst hq1
            exact hqd (Nat.dvd_of_mod_eq_zero h)
          · have hnone : panels_to_slots rest W = none := ih.mpr ⟨q, hq2, hqd⟩
            rw [hnone] at hrest
            exact absurd hrest (by simp)
      · have hp : panel_duration_to_slots dur W = none := by
          simp [panel_duration_to_slots, h]
        rw [hp]
        simp only [true_iff]
        exact ⟨(name, dur), List.mem_cons_self _ _,
          fun hd => h (Nat.mod_eq_zero_of_dvd hd)⟩
  · intro m hm
    simp [panel_duration_to_slots, Nat.mod_eq_zero_of_dvd hm]

/-- C7 witness: a 45-minute panel with 15-minute slots is accepted as 3 slots. -/
theorem C7_duration_validation_witness :
    panel_duration_to_slots 45 15 = some (45 / 15) :=
  (C7_duration_validation [("HR", 45)] 15 (by decide)).2 45 (by decide)

/-! ### C1: the chain topology bounds every consecutive gap

Abstract setting for one candidate: `s p` is the start and `d p` the
duration of panel `p`, `f` is the `follows` relation of the solution, `G`
the gap bound.  The hypotheses are exactly the constraints posted by
`_add_basic_constraints` (candidate no-overlap) and `_add_gap_constraints`. -/

section ChainLemmas

variable {n : ℕ} {s d : Fin n → ℕ} {G : ℕ} {f : Fin n → Fin n → Bool}

/-- With positive durations, non-overlapping sessions have distinct starts. -/
theorem chain_start_ne (hd : ∀ p, 1 ≤ d p)
    (hno : ∀ p q, p ≠ q → s p + d p ≤ s q ∨ s q + d q ≤ s p)
    {p q : Fin n} (hpq : p ≠ q) : s p ≠ s q := by
  have h1 := hd p
  have h2 := hd q
  rcases hno p q hpq with h | h <;> omega

/-- A panel has at most one `follows`-successor: the "nothing starts in
between" constraint forces two successors to share a start. -/
theorem chain_succ_unique (hd : ∀ p, 1 ≤ d p)
    (hno : ∀ p q, p ≠ q → s p + d p ≤ s q ∨ s q + d q ≤ s p)
    (hf1 : ∀ p q, p ≠ q → f p q = true → s p + d p ≤ s q)
    (h3 : ∀ p q r, p ≠ q → r ≠ p → r ≠ q → f p q = true →
      s r < s p + d p ∨ s q ≤ s r)
    {p q q' : Fin n} (hpq : p ≠ q) (hpq' : p ≠ q')
    (hq : f p q = true) (hq' : f p q' = true) : q = q' := by
  by_contra hne
  have h1 := hf1 p q hpq hq
  have h1' := hf1 p q' hpq' hq'
  have ha := h3 p q q' hpq (Ne.symm hpq') (Ne.symm hne) hq
  have hb := h3 p q' q hpq' (Ne.symm hpq) hne hq'
  have hsne : s q ≠ s q' := chain_start_ne hd hno hne
  omega

/-- With `n - 1` `follows` edges in total, every panel except the one with
the maximal start has an outgoing edge. -/
theorem chain_exists_edge (hd : ∀ p, 1 ≤ d p)
    (hno : ∀ p q, p ≠ q → s p + d p ≤ s q ∨ s q + d q ≤ s p)
    (hf1 : ∀ p q, p ≠ q → f p q = true → s p + d p ≤ s q)
    (h3 : ∀ p q r, p ≠ q → r ≠ p → r ≠ q → f p q = true →
      s r < s p + d p ∨ s q ≤ s r)
    (hcount : (Finset.univ.filter
      (fun pq : Fin n × Fin n => pq.1 ≠ pq.2 ∧ f pq.1 pq.2 = true)).card = n - 1)
    {p pm : Fin n} (hpm : ∀ r, s r ≤ s pm) (hppm : p ≠ pm) :
    ∃ q, p ≠ q ∧ f p q = true := by
  classical
  set E := Finset.univ.filter
    (fun pq : Fin n × Fin n => pq.1 ≠ pq.2 ∧ f pq.1 pq.2 = true) with hE
  have hmemE : ∀ e : Fin n × Fin n, e ∈ E ↔ e.1 ≠ e.2 ∧ f e.1 e.2 = true := by
    intro e
    simp [hE]
  have hinj : Set.InjOn Prod.fst (E : Set (Fin n × Fin n)) := by
    intro e1 he1 e2 he2 heq
    rw [Finset.mem_coe, hmemE] at he1 he2
    have h2 : e1.2 = e2.2 := by
      refine chain_succ_unique hd hno hf1 h3 he1.1 ?_ he1.2 ?_
      · rw [heq]; exact he2.1
      · have := he2.2
        rw [← heq] at this
        exact this
    exact Prod.ext heq h2
  have hsrc_card : (E.image Prod.fst).card = n - 1 := by
    rw [Finset.card_image_of_injOn hinj, hcount]
  have hsub : E.image Prod.fst ⊆ Finset.univ.erase pm := by
    intro x hx
    rw [Finset.mem_image] at hx
    obtain ⟨e, he, rfl⟩ := hx
    rw [hmemE] at he
    refine Finset.mem_erase.mpr ⟨?_, Finset.mem_univ _⟩
    rintro rfl
    have h1 := hf1 e.1 e.2 he.1 he.2
    have h2 := hpm e.2
    have h3' := hd e.1
    omega
  have herase : (Finset.univ.erase pm).card = n - 1 := by
    rw [Finset.card_erase_of_mem (Finset.mem_univ _), Finset.card_univ, Fintype.card_fin]
  have hsrc_eq : E.image Prod.fst = Finset.univ.erase pm :=
    Finset.eq_of_subset_of_card_le hsub (by rw [hsrc_card, herase])
  have hp : p ∈ E.image Prod.fst := by
    rw [hsrc_eq]
    exact Finset.mem_erase.mpr ⟨hppm, Finset.mem_univ _⟩
  rw [Finset.mem_image] at hp
  obtain ⟨e, he, hfst⟩ := hp
  rw [hmemE] at he
  subst hfst
  exact ⟨e.2, he.1, he.2⟩

/-- The core gap bound: if `q` starts after `p` with no panel starting in
between, then `q` is `p`'s `follows`-successor and the gap between `p`'s end
and `q`'s start lies in `[0, G]`. -/
theorem chain_gap_of_adjacent (hd : ∀ p, 1 ≤ d p)
    (hno : ∀ p q, p ≠ q → s p + d p ≤ s q ∨ s q + d q ≤ s p)
    (hf1 : ∀ p q, p ≠ q → f p q = true → s p + d p ≤ s q)
    (hf2 : ∀ p q, p ≠ q → f p q = true → s q ≤ s p + d p + G)
    (h3 : ∀ p q r, p ≠ q → r ≠ p → r ≠ q → f p q = true →
      s r < s p + d p ∨ s q ≤ s r)
    (hcount : (Finset.univ.filter
      (fun pq : Fin n × Fin n => pq.1 ≠ pq.2 ∧ f pq.1 pq.2 = true)).card = n - 1)
    {p q : Fin n} (hlt : s p < s q)
    (hmid : ∀ r, ¬(s p < s r ∧ s r < s q)) :
    s p + d p ≤ s q ∧ s q ≤ s p + d p + G := by
  obtain ⟨pm, _, hpmax⟩ :=
    Finset.exists_max_image (Finset.univ : Finset (Fin n)) s ⟨p, Finset.mem_univ p⟩
  have hpm : ∀ r, s r ≤ s pm := fun r => hpmax r (Finset.mem_univ r)
  have hppm : p ≠ pm := by
    rintro rfl
    exact absurd (hpm q) (by omega)
  obtain ⟨q'', hpq'', hfq''⟩ := chain_exists_edge hd hno hf1 h3 hcount hpm hppm
  have h1 := hf1 p q'' hpq'' hfq''
  have hdp := hd p
  have hpq : p ≠ q := by
    rintro rfl
    omega
  have hq''q : q'' = q := by
    by_contra hne
    have hsq : s q'' ≠ s q := chain_start_ne hd hno hne
    rcases Nat.lt_or_ge (s q'') (s q) with hcase | hcase
    · exact hmid q'' ⟨by omega, hcase⟩
    · have h3' := h3 p q'' q hpq'' (Ne.symm hpq) (Ne.symm hne) hfq''
      rcases h3' with hc | hc
      · rcases hno p q hpq with hn | hn
        · omega
        · have := hd q
          omega
      · omega
  subst hq''q
  exact ⟨h1, hf2 p q'' hpq'' hfq''⟩

end ChainLemmas

/-- C1: in every solution returned by a successful solve, for every
candidate, when that candidate's sessions are listed in ascending start
order (`l` is any sorted enumeration of all panels), every consecutive gap
`start_{i+1} - (start_i + d_i)` is at least 0 and at most
`max_gap_slots = max_gap_minutes // slot_duration_minutes` slots. -/
theorem C1_gap_bound (prob : SchedProblem) (a : Assignment prob)
    (hsat : SolutionSat prob a) (hd : ∀ p, 1 ≤ prob.duration p)
    (c : Fin prob.num_candidates)
    (l : List (Fin prob.numPanels)) (hperm : l.Perm (List.finRange prob.numPanels))
    (hsort : l.Sorted (fun p q => a.start c p ≤ a.start c q))
    (i : ℕ) (hi : i + 1 < l.length) :
    0 ≤ (a.start c (l.get ⟨i + 1, hi⟩) : ℤ) -
      ((a.start c (l.get ⟨i, Nat.lt_of_succ_lt hi⟩) : ℤ) +
       (prob.duration (l.get ⟨i, Nat.lt_of_succ_lt hi⟩) : ℤ)) ∧
    (a.start c (l.get ⟨i + 1, hi⟩) : ℤ) -
      ((a.start c (l.get ⟨i, Nat.lt_of_succ_lt hi⟩) : ℤ) +
       (prob.duration (l.get ⟨i, Nat.lt_of_succ_lt hi⟩) : ℤ)) ≤
      (prob.max_gap_slots : ℤ) := by
  obtain ⟨-, hcand, -, -, hgap, -⟩ := hsat
  have hno : ∀ p q, p ≠ q → a.start c p + prob.duration p ≤ a.start c q ∨
      a.start c q + prob.duration q ≤ a.start c p :=
    fun p q h => hcand c p q h
  obtain ⟨hf1, hf2, hbef, haft, hor, -, -, hcountZ⟩ := hgap c
  have h3 : ∀ p1 p2 p3, p1 ≠ p2 → p3 ≠ p1 → p3 ≠ p2 →
      a.follows c p1 p2 = true →
      a.start c p3 < a.start c p1 + prob.duration p1 ∨
      a.start c p2 ≤ a.start c p3 := by
    intro p1 p2 p3 h12 h31 h32 hf
    rcases hor p1 p2 p3 h12 h31 h32 hf with hb | hb
    · exact Or.inl (hbef p1 p2 p3 h12 h31 h32 hf hb)
    · exact Or.inr (haft p1 p2 p3 h12 h31 h32 hf hb)
  set p := l.get ⟨i, Nat.lt_of_succ_lt hi⟩ with hp
  set q := l.get ⟨i + 1, hi⟩ with hq
  have hn1 : 1 ≤ prob.numPanels := p.pos
  have hcount : (Finset.univ.filter
      (fun pq : Fin prob.numPanels × Fin prob.numPanels =>
        pq.1 ≠ pq.2 ∧ a.follows c pq.1 pq.2 = true)).card = prob.numPanels - 1 := by
    omega
  have hnodup : l.Nodup := hperm.nodup_iff.mpr (List.nodup_finRange _)
  have hgetinj := List.nodup_iff_injective_get.mp hnodup
  have hmem : ∀ r : Fin prob.numPanels, r ∈ l := fun r =>
    hperm.symm.subset (List.mem_finRange r)
  have hpqne : p ≠ q := by
    intro h
    have := hgetinj h
    simp only [Fin.mk.injEq] at this
    omega
  have hle : a.start c p ≤ a.start c q :=
    hsort.rel_get_of_lt (by simp [Fin.lt_def])
  have hlt : a.start c p < a.start c q :=
    lt_of_le_of_ne hle (chain_start_ne hd hno hpqne)
  have hmid : ∀ r, ¬(a.start c p < a.start c r ∧ a.start c r < a.start c q) := by
    rintro r ⟨hr1, hr2⟩
    obtain ⟨j, hj⟩ := List.mem_iff_get.mp (hmem r)
    rcases Nat.lt_trichotomy j.val i with hc | hc | hc
    · have hrel : a.start c (l.get j) ≤ a.start c p :=
        hsort.rel_get_of_lt (by simp [Fin.lt_def]; omega)
      rw [hj] at hrel
      omega
    · have : j = ⟨i, Nat.lt_of_succ_lt hi⟩ := Fin.ext hc
      rw [this] at hj
      rw [← hp] at hj
      rw [hj] at hr1
      omega
    · rcases Nat.eq_or_lt_of_le hc with hc2 | hc2
      · have : j = ⟨i + 1, hi⟩ := Fin.ext hc2.symm
        rw [this] at hj
        rw [← hq] at hj
        rw [hj] at hr2
        omega
      · have hrel : a.start c q ≤ a.start c (l.get j) :=
          hsort.rel_get_of_lt (by simp [Fin.lt_def]; omega)
        rw [hj] at hrel
        omega
  have hmain := chain_gap_of_adjacent hd hno hf1 hf2 h3 hcount hlt hmid
  constructor <;> [omega; omega]

/-- C1 witness: the gap bound evaluated on the concrete solved instance
`exProb`/`exAssign` with the sorted panel list. -/
theorem C1_gap_bound_witness :
    0 ≤ (exAssign.start ⟨0, by decide⟩
        ([(⟨0, by decide⟩ : Fin exProb.numPanels), ⟨1, by decide⟩].get ⟨1, by decide⟩) : ℤ) -
      ((exAssign.start ⟨0, by decide⟩
        ([(⟨0, by decide⟩ : Fin exProb.numPanels), ⟨1, by decide⟩].get ⟨0, by decide⟩) : ℤ) +
       (exProb.duration
        ([(⟨0, by decide⟩ : Fin exProb.numPanels), ⟨1, by decide⟩].get ⟨0, by decide⟩) : ℤ)) :=
  (C1_gap_bound exProb exAssign (by decide) (by decide) ⟨0, by decide⟩
    [⟨0, by decide⟩, ⟨1, by decide⟩] (by decide) (by decide) 0 (by decide)).1

/-- C2: in every solution, for each panel whose name is outside
`lunch_like_panels = {"Lunch"}`, the sessions of distinct candidates occupy
disjoint slot sets; and panels in the set are exempt: a full satisfying
solution exists (`lunchProb`) in which two candidates' `"Lunch"` sessions
overlap at slot 0. -/
theorem C2_panel_no_overlap :
    (∀ (prob : SchedProblem) (a : Assignment prob), SolutionSat prob a →
      ∀ p, prob.panel_name p ∉ lunch_like_panels →
        ∀ c c', c ≠ c' → ∀ t,
          ¬(InSession prob a c p t ∧ InSession prob a c' p t)) ∧
    (SolutionSat lunchProb lunchAssign ∧
      InSession lunchProb lunchAssign ⟨0, by decide⟩ ⟨0, by decide⟩ 0 ∧
      InSession lunchProb lunchAssign ⟨1, by decide⟩ ⟨0, by decide⟩ 0) := by
  constructor
  · rintro prob a hsat p hp c c' hcc t ⟨ht1, ht2⟩
    rcases hsat.2.2.1 p hp c c' hcc with h | h
    · obtain ⟨-, h1⟩ := ht1
      obtain ⟨h2, -⟩ := ht2
      omega
    · obtain ⟨h1, -⟩ := ht1
      obtain ⟨-, h2⟩ := ht2
      omega
  · exact ⟨by decide, by decide, by decide⟩

/-- C2 witness: the no-overlap half applied to the ordinary panel `"Solo"`
of the solved instance `soloProb`. -/
theorem C2_panel_no_overlap_witness :
    ¬(InSession soloProb soloAssign ⟨0, by decide⟩ ⟨0, by decide⟩ 0 ∧
      InSession soloProb soloAssign ⟨1, by decide⟩ ⟨0, by decide⟩ 0) :=
  C2_panel_no_overlap.1 soloProb soloAssign (by decide) ⟨0, by decide⟩
    (by decide) ⟨0, by decide⟩ ⟨1, by decide⟩ (by decide) 0

/-- C3: the minimized objective is `num_breaks * BIG + makespan` with
`BIG = (slots_per_day + 1) * 1000`; every feasible assignment has
`makespan ≤ slots_per_day`, so of two feasible assignments of the same
model, the one with strictly fewer order breaks has the strictly smaller
objective, regardless of the two makespans. -/
theorem C3_lexicographic_objective (prob : SchedProblem)
    (a1 a2 : Assignment prob) (h1 : SolutionSat prob a1) (_h2 : SolutionSat prob a2)
    (hb : a1.num_breaks < a2.num_breaks) :
    objective prob a1 =
      a1.num_breaks * ((prob.slots_per_day + 1) * 1000) + a1.makespan ∧
    a1.makespan ≤ prob.slots_per_day ∧
    objective prob a1 < objective prob a2 := by
  obtain ⟨-, -, hm1, -⟩ := h1.2.2.2.2.2.2.2.2
  refine ⟨rfl, hm1, ?_⟩
  have hB : a1.makespan < BIG prob := by
    unfold BIG
    omega
  calc objective prob a1 = a1.num_breaks * BIG prob + a1.makespan := rfl
    _ < a1.num_breaks * BIG prob + BIG prob := Nat.add_lt_add_left hB _
    _ = (a1.num_breaks + 1) * BIG prob := by ring
    _ ≤ a2.num_breaks * BIG prob := Nat.mul_le_mul_right _ hb
    _ ≤ a2.num_breaks * BIG prob + a2.makespan := Nat.le_add_right _ _
    _ = objective prob a2 := rfl

/-- C3 witness: on `exProb`, the order-respecting solution (0 breaks) has a
strictly smaller objective than the order-breaking one (1 break). -/
theorem C3_lexicographic_objective_witness :
    objective exProb exAssign < objective exProb exAssignBroken :=
  (C3_lexicographic_objective exProb exAssign exAssignBroken
    (by decide) (by decide) (by decide)).2.2

/-- C4: for every panel pinned at an integer position `k`, in every
solution, exactly `k` of the candidate's other panels have completed (end
slot at most the pinned panel's start slot) when the pinned panel begins. -/
theorem C4_integer_position (prob : SchedProblem) (a : Assignment prob)
    (hsat : SolutionSat prob a) (c : Fin prob.num_candidates)
    (p : Fin prob.numPanels) (k : ℕ)
    (hpc : (p, Position.atIndex k) ∈ prob.position_constraints) :
    (Finset.univ.filter (fun q => q ≠ p ∧
      a.start c q + prob.duration q ≤ a.start c p)).card = k := by
  have hpos : PositionOk prob a c p (Position.atIndex k) :=
    hsat.2.2.2.2.2.1 c (p, Position.atIndex k) hpc
  obtain ⟨himp, hcard⟩ := hpos
  rw [← hcard]
  refine congrArg Finset.card ?_
  apply Finset.filter_congr
  intro q _
  constructor
  · rintro ⟨hne, hle⟩
    refine ⟨hne, ?_⟩
    by_contra hpb
    have h2 := (himp q hne).2 (Bool.not_eq_true _ ▸ hpb)
    omega
  · rintro ⟨hne, hpb⟩
    exact ⟨hne, (himp q hne).1 hpb⟩

/-- C4 witness: in the solved instance `posProb` (panel 0 pinned at integer
position 1), exactly one other panel ends before panel 0 starts. -/
theorem C4_integer_position_witness :
    (Finset.univ.filter (fun q => q ≠ (⟨0, by decide⟩ : Fin posProb.numPanels) ∧
      posAssign.start ⟨0, by decide⟩ q + posProb.duration q ≤
        posAssign.start ⟨0, by decide⟩ ⟨0, by decide⟩)).card = 1 :=
  C4_integer_position posProb posAssign (by decide) ⟨0, by decide⟩
    ⟨0, by decide⟩ 1 (by decide)

/-- C10: in the no-solution state (`solution_found` false, whether because
`solve()` was never run or found nothing), `get_candidate_schedule` returns
`[]` for every candidate, `get_solution_summary` returns a record whose
`status` is `"No solution found"` (and nothing else), and `export_to_csv`
raises `ValueError`; no stored start values leak into any of the three. -/
theorem C10_no_solution_state (prob : SchedProblem) (st : SolverState prob)
    (h : st.solution_found = false) :
    (∀ c, get_candidate_schedule prob st c = []) ∧
    get_solution_summary prob st =
      { status := "No solution found"
        order_breaks := none
        day_ends_at := none
        max_gap_enforced := none } ∧
    (∀ date, export_to_csv prob st date =
      .error "No solution found. Call solve() first.") := by
  refine ⟨fun c => ?_, ?_, fun date => ?_⟩
  · rw [get_candidate_schedule, if_pos h]
  · rw [get_solution_summary, if_pos h]
  · rw [export_to_csv, if_pos h]

/-- C10 witness: the three no-solution behaviours on the concrete unsolved
state `stNone`. -/
theorem C10_no_solution_state_witness :
    get_candidate_schedule exProb stNone ⟨0, by decide⟩ = [] ∧
    (get_solution_summary exProb stNone).status = "No solution found" ∧
    export_to_csv exProb stNone "DATE" =
      .error "No solution found. Call solve() first." :=
  ⟨(C10_no_solution_state exProb stNone rfl).1 ⟨0, by decide⟩,
   by rw [(C10_no_solution_state exProb stNone rfl).2.1],
   (C10_no_solution_state exProb stNone rfl).2.2 "DATE"⟩

/-! ### C9: helper lemmas about the embedded Python string operations -/

theorem digit_toLower {c : Char} (h : c ∈ digitChars) : c.toLower = c := by
  fin_cases h <;> decide

theorem digit_space {c : Char} (h : c ∈ digitChars) : pyIsSpace c = false := by
  fin_cases h <;> decide

theorem digit_isDigit {c : Char} (h : c ∈ digitChars) : c.isDigit = true := by
  fin_cases h <;> decide

theorem digit_ne {c : Char} (h : c ∈ digitChars) :
    c ≠ 'h' ∧ c ≠ 'm' ∧ c ≠ '+' ∧ c ≠ '-' := by
  fin_cases h <;> exact ⟨by decide, by decide, by decide, by decide⟩

theorem pyLower_eq_self {l : List Char} (h : ∀ c ∈ l, c.toLower = c) :
    pyLower l = l := by
  induction l with
  | nil => rfl
  | cons c r ih =>
    simp only [pyLower, List.map_cons] at *
    exact List.cons_eq_cons.mpr
      ⟨h c (List.mem_cons_self c r), ih fun x hx => h x (List.mem_cons_of_mem _ hx)⟩

theorem dropWhile_eq_self_of {p : Char → Bool} {l : List Char}
    (h : ∀ c ∈ l, p c = false) : l.dropWhile p = l := by
  cases l with
  | nil => rfl
  | cons c r =>
    rw [List.dropWhile_cons, h c (List.mem_cons_self c r)]
    simp

theorem pyStrip_eq_self {l : List Char} (h : ∀ c ∈ l, pyIsSpace c = false) :
    pyStrip l = l := by
  rw [pyStrip, dropWhile_eq_self_of h, dropWhile_eq_self_of
    (fun c hc => h c (List.mem_reverse.mp hc)), List.reverse_reverse]

theorem pyIsDigit_of_digits {l : List Char} (hne : l ≠ [])
    (h : ∀ c ∈ l, c ∈ digitChars) : pyIsDigit l = true := by
  rw [pyIsDigit, Bool.and_eq_true, List.all_eq_true]
  exact ⟨by simp [List.isEmpty_iff, hne], fun c hc => digit_isDigit (h c hc)⟩

theorem pyIsDigit_false_of_mem {l : List Char} (c : Char) (hc : c ∈ l)
    (h : c.isDigit = false) : pyIsDigit l = false := by
  rw [pyIsDigit]
  simp only [Bool.and_eq_false_iff]
  right
  rw [List.all_eq_false]
  exact ⟨c, hc, by rw [h]; decide⟩

theorem pyInt_digits {l : List Char} (hne : l ≠ [])
    (h : ∀ c ∈ l, c ∈ digitChars) : pyInt l = some (digitsToNat l : ℤ) := by
  rw [pyInt, pyStrip_eq_self (fun c hc => digit_space (h c hc))]
  cases l with
  | nil => exact absurd rfl hne
  | cons c r =>
    have hd := digit_ne (h c (List.mem_cons_self c r))
    rw [pyIntCore, if_neg hd.2.2.1, if_neg hd.2.2.2,
      if_pos (pyIsDigit_of_digits (by simp) h)]

theorem pyContains_infix_iff {pat s : List Char} :
    pyContains pat s = true ↔ pat <:+: s := by
  induction s with
  | nil =>
    rw [pyContains]
    simp [List.isEmpty_iff]
  | cons c r ih =>
    rw [pyContains, Bool.or_eq_true, List.isPrefixOf_iff_prefix, ih,
      List.infix_cons_iff]

theorem pyContains_singleton {c : Char} {s : List Char} :
    pyContains [c] s = true ↔ c ∈ s := by
  rw [pyContains_infix_iff]
  constructor
  · intro h
    exact h.subset (List.mem_singleton_self c)
  · intro h
    obtain ⟨u, v, huv⟩ := List.append_of_mem h
    exact ⟨u, v, by rw [huv]; simp⟩

theorem pyContains_append_self (u pat : List Char) :
    pyContains pat (u ++ pat) = true := by
  rw [pyContains_infix_iff]
  exact ⟨u, [], by simp⟩

theorem pyContains_false_of_mem {pat s : List Char} {c : Char} (hc : c ∈ pat)
    (h : c ∉ s) : pyContains pat s = false := by
  rw [Bool.eq_false_iff]
  intro hcon
  exact h ((pyContains_infix_iff.mp hcon).subset hc)

theorem pySplit_no_sep {sep : Char} {l : List Char} (h : sep ∉ l) :
    pySplit sep l = [l] := by
  induction l with
  | nil => rfl
  | cons c r ih =>
    rw [pySplit, if_neg (fun hx : c = sep => h (by rw [← hx]; exact List.mem_cons_self c r)),
      ih (fun hx => h (List.mem_cons_of_mem _ hx))]

theorem pySplit_append {sep : Char} {u v : List Char} (h : sep ∉ u) :
    pySplit sep (u ++ sep :: v) = u :: pySplit sep v := by
  induction u with
  | nil =>
    rw [List.nil_append, pySplit, if_pos rfl]
  | cons c u' ih =>
    rw [List.cons_append, pySplit,
      if_neg (fun hx : c = sep => h (by rw [← hx]; exact List.mem_cons_self c u')),
      ih (fun hx => h (List.mem_cons_of_mem _ hx))]

theorem pyRemoveGo_nil (pat : List Char) (k : ℕ) : pyRemoveGo pat k [] = [] := by
  cases k <;> rfl

theorem pyRemoveGo_skip_all {pat l : List Char} {k : ℕ} (h : l.length ≤ k) :
    pyRemoveGo pat k l = [] := by
  induction l generalizing k with
  | nil => exact pyRemoveGo_nil pat k
  | cons c r ih =>
    cases k with
    | zero => simp at h
    | succ k' =>
      rw [pyRemoveGo]
      exact ih (by simpa using h)

theorem pyRemove_append {p : Char} {pr u : List Char}
    (h : ∀ c ∈ u, c ≠ p) : pyRemove (p :: pr) (u ++ p :: pr) = u := by
  induction u with
  | nil =>
    rw [List.nil_append, pyRemove]
    simp only [pyRemoveGo]
    rw [if_pos ⟨by simp, List.isPrefixOf_iff_prefix.mpr (List.prefix_refl _)⟩]
    exact pyRemoveGo_skip_all (by simp)
  | cons c u' ih =>
    have hneg : ¬((p :: pr) ≠ [] ∧ (p :: pr).isPrefixOf (c :: (u' ++ p :: pr))) := by
      rintro ⟨-, hpre⟩
      simp only [List.isPrefixOf, Bool.and_eq_true, beq_iff_eq] at hpre
      exact h c (List.mem_cons_self c u') hpre.1.symm
    rw [List.cons_append, pyRemove]
    simp only [pyRemoveGo]
    rw [if_neg hneg]
    have hrec := ih (fun x hx => h x (List.mem_cons_of_mem _ hx))
    rw [pyRemove] at hrec
    rw [hrec]

theorem strip_lower_eq {l : List Char}
    (h : ∀ c ∈ l, c.toLower = c ∧ pyIsSpace c = false) :
    pyStrip (pyLower l) = l := by
  rw [pyLower_eq_self (fun c hc => (h c hc).1),
    pyStrip_eq_self (fun c hc => (h c hc).2)]

theorem digit_fixed {c : Char} (h : c ∈ digitChars) :
    c.toLower = c ∧ pyIsSpace c = false :=
  ⟨digit_toLower h, digit_space h⟩

/-- Format `N`: a nonempty digit string parses to its decimal value. -/
theorem parse_duration_digits {ds : List Char} (hne : ds ≠ [])
    (h : ∀ c ∈ ds, c ∈ digitChars) :
    parse_duration ds = some (digitsToNat ds : ℤ) := by
  simp only [parse_duration]
  rw [strip_lower_eq (fun c hc => digit_fixed (h c hc)),
    if_pos (pyIsDigit_of_digits hne h), pyInt_digits hne h]

/-- Format `Nmin`: digits followed by `min` parse to the digits' value. -/
theorem parse_duration_min {ds : List Char} (hne : ds ≠ [])
    (h : ∀ c ∈ ds, c ∈ digitChars) :
    parse_duration (ds ++ ['m', 'i', 'n']) = some (digitsToNat ds : ℤ) := by
  have hfix : ∀ c ∈ ds ++ ['m', 'i', 'n'], c.toLower = c ∧ pyIsSpace c = false := by
    intro c hc
    rcases List.mem_append.mp hc with hc | hc
    · exact digit_fixed (h c hc)
    · fin_cases hc <;> exact ⟨by decide, by decide⟩
  have hdig : pyIsDigit (ds ++ ['m', 'i', 'n']) = false :=
    pyIsDigit_false_of_mem 'm' (List.mem_append_right ds (by decide)) (by decide)
  have hch : pyContains ['h'] (ds ++ ['m', 'i', 'n']) = false := by
    refine pyContains_false_of_mem (List.mem_singleton_self 'h') ?_
    intro hmem
    rcases List.mem_append.mp hmem with hc | hc
    · exact (digit_ne (h 'h' hc)).1 rfl
    · simp at hc
  simp only [parse_duration]
  rw [strip_lower_eq hfix, hdig, hch]
  simp only [Bool.false_eq_true, if_false]
  rw [if_pos (pyContains_append_self ds ['m', 'i', 'n']),
    pyRemove_append (fun c hc => (digit_ne (h c hc)).2.1), pyInt_digits hne h]

/-- Format `Nh`: digits followed by `h` parse to 60 times the digits. -/
theorem parse_duration_hours {ds : List Char} (hne : ds ≠ [])
    (h : ∀ c ∈ ds, c ∈ digitChars) :
    parse_duration (ds ++ ['h']) = some ((digitsToNat ds : ℤ) * 60 + 0) := by
  have hfix : ∀ c ∈ ds ++ ['h'], c.toLower = c ∧ pyIsSpace c = false := by
    intro c hc
    rcases List.mem_append.mp hc with hc | hc
    · exact digit_fixed (h c hc)
    · fin_cases hc <;> exact ⟨by decide, by decide⟩
  have hdig : pyIsDigit (ds ++ ['h']) = false :=
    pyIsDigit_false_of_mem 'h' (List.mem_append_right ds (by decide)) (by decide)
  have hmin : pyContains ['m', 'i', 'n'] (ds ++ ['h']) = false := by
    refine pyContains_false_of_mem (by decide : 'm' ∈ ['m', 'i', 'n']) ?_
    intro hmem
    rcases List.mem_append.mp hmem with hc | hc
    · exact (digit_ne (h 'm' hc)).2.1 rfl
    · simp at hc
  simp only [parse_duration]
  rw [strip_lower_eq hfix, hdig, hmin]
  simp only [Bool.false_eq_true, if_false]
  rw [if_pos (pyContains_append_self ds ['h']),
    pyRemove_append (fun c hc => (digit_ne (h c hc)).1), pyInt_digits hne h]

/-- Format `NhMmin`: hours digits, `h`, minutes digits, `min`. -/
theorem parse_duration_hours_min {ds1 ds2 : List Char}
    (hne1 : ds1 ≠ []) (h1 : ∀ c ∈ ds1, c ∈ digitChars)
    (hne2 : ds2 ≠ []) (h2 : ∀ c ∈ ds2, c ∈ digitChars) :
    parse_duration (ds1 ++ 'h' :: (ds2 ++ ['m', 'i', 'n'])) =
      some ((digitsToNat ds1 : ℤ) * 60 + (digitsToNat ds2 : ℤ)) := by
  have hfix : ∀ c ∈ ds1 ++ 'h' :: (ds2 ++ ['m', 'i', 'n']),
      c.toLower = c ∧ pyIsSpace c = false := by
    intro c hc
    rcases List.mem_append.mp hc with hc | hc
    · exact digit_fixed (h1 c hc)
    · rcases List.mem_cons.mp hc with hc | hc
      · subst hc
        exact ⟨by decide, by decide⟩
      · rcases List.mem_append.mp hc with hc | hc
        · exact digit_fixed (h2 c hc)
        · fin_cases hc <;> exact ⟨by decide, by decide⟩
  have hdig : pyIsDigit (ds1 ++ 'h' :: (ds2 ++ ['m', 'i', 'n'])) = false :=
    pyIsDigit_false_of_mem 'h' (List.mem_append_right ds1 (List.mem_cons_self _ _))
      (by decide)
  have hch : pyContains ['h'] (ds1 ++ 'h' :: (ds2 ++ ['m', 'i', 'n'])) = true :=
    pyContains_singleton.mpr
      (List.mem_append_right ds1 (List.mem_cons_self _ _))
  have hassoc : ds1 ++ 'h' :: (ds2 ++ ['m', 'i', 'n']) =
      (ds1 ++ 'h' :: ds2) ++ ['m', 'i', 'n'] := by
    simp
  have hmin : pyContains ['m', 'i', 'n'] (ds1 ++ 'h' :: (ds2 ++ ['m', 'i', 'n'])) = true := by
    rw [hassoc]
    exact pyContains_append_self _ _
  have hsplit : pySplit 'h' (ds1 ++ 'h' :: (ds2 ++ ['m', 'i', 'n'])) =
      [ds1, ds2 ++ ['m', 'i', 'n']] := by
    rw [pySplit_append (fun hx => (digit_ne (h1 'h' hx)).1 rfl),
      pySplit_no_sep ?_]
    intro hmem
    rcases List.mem_append.mp hmem with hc | hc
    · exact (digit_ne (h2 'h' hc)).1 rfl
    · simp at hc
  simp only [parse_duration]
  rw [strip_lower_eq hfix, hdig, hch, hmin]
  simp only [Bool.false_eq_true, if_false, if_pos]
  rw [hsplit]
  simp only
  rw [pyInt_digits hne1 h1]
  simp only
  rw [pyRemove_append (fun c hc => (digit_ne (h2 c hc)).2.1),
    pyStrip_eq_self (fun c hc => digit_space (h2 c hc))]
  rw [if_neg (by simp [List.isEmpty_iff, hne2])]
  rw [pyInt_digits hne2 h2]

/-- C9 counterexample: `"1h30"` is in none of the four formats
(`N`, `Nmin`, `Nh`, `NhMmin`), yet `parse_duration` does not fail on it —
it strips the `'h'` and reads `int("130") = 130` hours, returning 7800
minutes — so "any text in none of these formats makes it fail" is false. -/
theorem C9_counterexample :
    isSpecFormat "1h30".toList = false ∧
    parse_duration "1h30".toList = some 7800 := by
  constructor
  · decide
  · decide

/-- C9 (amended): `parse_duration` accepts the formats `N`, `Nmin`, `Nh`
and `NhMmin` case-insensitively and returns the total minutes, and the four
documented examples hold; but it does not reject every other text — e.g.
`"1h30"`, in none of the formats, is accepted with 7800. -/
theorem C9_parse_duration :
    (∀ ds : List Char, ds ≠ [] → (∀ c ∈ ds, c ∈ digitChars) →
      parse_duration ds = some (digitsToNat ds : ℤ)) ∧
    (∀ ds : List Char, ds ≠ [] → (∀ c ∈ ds, c ∈ digitChars) →
      parse_duration (ds ++ ['m', 'i', 'n']) = some (digitsToNat ds : ℤ)) ∧
    (∀ ds : List Char, ds ≠ [] → (∀ c ∈ ds, c ∈ digitChars) →
      parse_duration (ds ++ ['h']) = some ((digitsToNat ds : ℤ) * 60 + 0)) ∧
    (∀ ds1 ds2 : List Char, ds1 ≠ [] → (∀ c ∈ ds1, c ∈ digitChars) →
      ds2 ≠ [] → (∀ c ∈ ds2, c ∈ digitChars) →
      parse_duration (ds1 ++ 'h' :: (ds2 ++ ['m', 'i', 'n'])) =
        some ((digitsToNat ds1 : ℤ) * 60 + (digitsToNat ds2 : ℤ))) ∧
    (∀ s t : List Char, pyLower s = pyLower t →
      parse_duration s = parse_duration t) ∧
    (parse_duration "1h30min".toList = some 90 ∧
      parse_duration "45min".toList = some 45 ∧
      parse_duration "2h".toList = some 120 ∧
      parse_duration "30".toList = some 30 ∧
      parse_duration "1H30MIN".toList = some 90) ∧
    (isSpecFormat "1h30".toList = false ∧
      parse_duration "1h30".toList = some 7800) := by
  refine ⟨fun ds h1 h2 => parse_duration_digits h1 h2,
    fun ds h1 h2 => parse_duration_min h1 h2,
    fun ds h1 h2 => parse_duration_hours h1 h2,
    fun ds1 ds2 h1 h2 h3 h4 => parse_duration_hours_min h1 h2 h3 h4,
    fun s t hst => ?_, by decide, by decide⟩
  simp only [parse_duration, hst]

/-- C9 witness: the format halves of the amended theorem instantiated at
concrete digit strings. -/
theorem C9_parse_duration_witness :
    parse_duration ['4', '5'] = some (digitsToNat ['4', '5'] : ℤ) ∧
    parse_duration (['2'] ++ ['h']) = some ((digitsToNat ['2'] : ℤ) * 60 + 0) ∧
    parse_duration (['1'] ++ 'h' :: (['3', '0'] ++ ['m', 'i', 'n'])) =
      some ((digitsToNat ['1'] : ℤ) * 60 + (digitsToNat ['3', '0'] : ℤ)) :=
  ⟨C9_parse_duration.1 ['4', '5'] (by decide) (by decide),
   C9_parse_duration.2.2.1 ['2'] (by decide) (by decide),
   C9_parse_duration.2.2.2.1 ['1'] ['3', '0'] (by decide) (by decide)
     (by decide) (by decide)⟩

end Scheduler
